import Mathlib

/-!
Verification of the candidate-generation and resolution algorithm of
`CSV_geolocator.py` (`CSVGeolocator._geolocate`).

The embedding is shallow: the pure candidate generation
(`itertools.combinations` accumulation, the stable sort by
`(min index, max index)`, the `", ".join`) becomes executable Lean
functions; the stateful resolution loop over the candidate sequence
becomes a structurally recursive function threading the cache state
(`discovered_addrs` as an association list, `no_result_list` as a list),
the accumulated warning string, and instrumentation traces (the provider
queries issued and the warning pieces appended, in order).

Python floats are opaque here (the code only stores and returns them, and
compares nothing): a float is either the `nan` sentinel produced on
failure or an opaque finite value.
-/

namespace CSVGeolocator

/-- Embedding of `itertools.combinations(xs, r)`: all sublists of `xs` of
length `r`, in the generation order of `itertools` (lexicographic by
member positions). -/
def combinations {α : Type} : Nat → List α → List (List α)
  | 0, _ => [[]]
  | _ + 1, [] => []
  | r + 1, x :: xs => (combinations r xs).map (fun l => x :: l) ++ combinations (r + 1) xs

/-- Embedding of the accumulation loop
`for depth in range(search_depth): composed_addresses += itertools.combinations(addr_snips, depth + 1)`
(`CSV_geolocator.py` lines 120-121). -/
def combosUpTo {α : Type} (D : Nat) (snips : List α) : List (List α) :=
  (List.range D).foldl (fun acc d => acc ++ combinations (d + 1) snips) []

/-- Embedding of the sort key
`lambda snips: (min([addr_snips.index(x) for x in snips]), max([addr_snips.index(x) for x in snips]))`
(`CSV_geolocator.py` lines 122-123). Every list the code sorts is a
non-empty combination, so the `[]` default is never consulted (Python's
`min`/`max` would raise there). -/
def addrKey {α : Type} [BEq α] (addr_snips : List α) (snips : List α) : Nat × Nat :=
  match snips.map (fun y => List.indexOf y addr_snips) with
  | [] => (0, 0)
  | i :: is => (is.foldl Nat.min i, is.foldl Nat.max i)

/-- Lexicographic comparison of the sort keys: how Python compares the
2-tuples produced by the sort key. -/
def keyLe (p q : Nat × Nat) : Prop :=
  p.1 < q.1 ∨ (p.1 = q.1 ∧ p.2 ≤ q.2)

instance keyLeDecidable (p q : Nat × Nat) : Decidable (keyLe p q) := by
  unfold keyLe
  infer_instance

/-- Insert `x` after every element whose key compares `≤` the key of
`x`: the insertion step of a stable insertion sort. -/
def insertSorted {α : Type} (key : α → Nat × Nat) (x : α) : List α → List α
  | [] => [x]
  | y :: ys => if keyLe (key y) (key x) then y :: insertSorted key x ys else x :: y :: ys

/-- Stable sort by `key`: the embedding of Python's stable
`list.sort(key=...)` (`CSV_geolocator.py` lines 122-123). Any stable
sorting algorithm computes the same list; this one is insertion sort. -/
def sortByKey {α : Type} (key : α → Nat × Nat) (l : List α) : List α :=
  l.foldl (fun acc x => insertSorted key x acc) []

/-- Embedding of lines 120-125 of `CSV_geolocator.py`: the prioritized
candidate sequence `composed_addresses` built by `_geolocate` — all
combinations of sizes `1 .. search_depth`, stably sorted by
`(min index, max index)`, each joined with `", "`. -/
def composed_addresses (search_depth : Nat) (addr_snips : List String) : List String :=
  (sortByKey (addrKey addr_snips) (combosUpTo search_depth addr_snips)).map
    (fun snips_list => String.intercalate ", " snips_list)

/-- The sorted subset sequence of lines 120-123 of the source, before the
`", ".join` of line 125: `composed_addresses` is its image under the
join. -/
def sortedCombos (search_depth : Nat) (addr_snips : List String) : List (List String) :=
  sortByKey (addrKey addr_snips) (combosUpTo search_depth addr_snips)

/-- Helper for instantiating general statements at a three-snippet list:
three strings as a function from `Fin 3`, used to transport the concrete
subset computation along a renaming. -/
def three (a b c : String) : Fin 3 → String
  | ⟨0, _⟩ => a
  | ⟨1, _⟩ => b
  | ⟨2, _⟩ => c

/-- An opaque Python float: the code never computes with coordinates, it
only stores and returns them, so a float is `nan` (the failure sentinel
`float('nan')`) or an opaque finite value. -/
inductive PyFloat : Type where
  | nan : PyFloat
  | val : Int → PyFloat
deriving DecidableEq, Repr

/-- A `(lat, lng)` pair as stored in `discovered_addrs` and returned by
the provider. -/
abbrev Coords : Type := PyFloat × PyFloat

/-- The mutable cache state of a `CSVGeolocator` instance:
`discovered_addrs` (a Python dict, embedded as an insertion-ordered
association list) and `no_result_list` (a Python list). -/
structure GeoState : Type where
  discovered : List (String × Coords)
  noResult : List String
deriving DecidableEq, Repr

/-- Embedding of Python dict assignment `d[k] = v`: replace the value at
`k` in place when the key is present, append `(k, v)` otherwise. -/
def dictInsert (k : String) (v : Coords) : List (String × Coords) → List (String × Coords)
  | [] => [(k, v)]
  | (k₁, v₁) :: rest =>
      if k₁ = k then (k, v) :: rest else (k₁, v₁) :: dictInsert k v rest

/-- One piece appended to the `warnings` string by `_geolocate`, kept as
structured instrumentation alongside the literal string. -/
inductive WEvent : Type where
  | fidelity : WEvent
  | noResult : String → WEvent
  | searchFailed : WEvent
deriving DecidableEq, Repr

/-- The literal text of line 132 of `CSV_geolocator.py`. -/
def fidelityMsg : String := "WARNING: Using fallbacks, loss of fidelity!"

/-- The literal text of line 167 of `CSV_geolocator.py`:
`"No result found for '{}'; ".format(attempted_address)`. -/
def noResultMsg (addr : String) : String :=
  "No result found for " ++ "'" ++ addr ++ "'" ++ "; "

/-- The literal text of line 170 of `CSV_geolocator.py`. -/
def searchFailedMsg : String := "Search Failed!;"

/-- The string a warning event contributes to the `warnings` string. -/
def WEvent.render : WEvent → String
  | .fidelity => fidelityMsg
  | .noResult addr => noResultMsg addr
  | .searchFailed => searchFailedMsg

/-- Concatenation of the rendered warning pieces, in order: the string a
sequence of warning events contributes to the `warnings` string. -/
def renderAll : List WEvent → String
  | [] => ""
  | e :: evs => WEvent.render e ++ renderAll evs

/-- Number of character positions at which `pat` occurs in `s` as a
substring. -/
def countOccur (pat s : String) : Nat :=
  (List.range (s.data.length + 1)).countP (fun i => pat.data.isPrefixOf (s.data.drop i))

/-- How a call to `_geolocate` ends: a returned `(lat, lng, warnings)`
triple, or the `NameError` Python raises at line 171 when the loop has
run zero iterations and `attempted_address` is unbound. -/
inductive GeoOutcome : Type where
  | ok : PyFloat → PyFloat → String → GeoOutcome
  | nameError : GeoOutcome
deriving DecidableEq, Repr

/-- The warning string a returned outcome carries (`""` for the raised
`NameError`, whose local `warnings` is lost with the exception). -/
def warningsOf : GeoOutcome → String
  | GeoOutcome.ok _ _ w => w
  | GeoOutcome.nameError => ""

/-- The full observable effect of one `_geolocate` call: its outcome, the
cache state after it, the provider queries it issued in order, the
warning pieces it appended in order, and the index the loop counter would
take next (`nextIdx - startIdx` = number of loop iterations begun). -/
structure GeoRun : Type where
  outcome : GeoOutcome
  state : GeoState
  queries : List String
  events : List WEvent
  nextIdx : Nat
deriving DecidableEq, Repr

/-- Embedding of the candidate loop of `_geolocate` (`CSV_geolocator.py`
lines 128-172), one constructor case per iteration over the remaining
candidates. `provider` is the external `gmaps_client.geocode` call with
the run's fixed region/viewport bias absorbed (the code passes the same
`gmaps_kwargs` on every call), returning the result list's locations.
`threshold` is `2 ** (len(addr_snips) - 1)`; `idx` is `attempt_index`;
`warnings` and `events` accumulate the warning text and its pieces;
`queries` records each provider call; `last` is the value of the Python
loop variable `attempted_address` from the previous iteration (`none`
before the first), consulted by the final
`self.no_result_list.append(attempted_address)` — which raises
`NameError` when the loop never ran. -/
def geoLoopAux (provider : String → List Coords) (threshold : Nat) :
    List String → Nat → String → List WEvent → GeoState → List String → Option String → GeoRun
  | [], idx, warnings, events, st, queries, last =>
    -- line 170: warnings += "Search Failed!;" (runs before the append of line 171)
    let warnings := warnings ++ searchFailedMsg
    let events := events ++ [WEvent.searchFailed]
    match last with
    | some a =>
        { outcome := GeoOutcome.ok PyFloat.nan PyFloat.nan warnings,
          state := { st with noResult := st.noResult ++ [a] },
          queries := queries, events := events, nextIdx := idx }
    | none =>
        -- line 171 raises NameError: attempted_address was never assigned
        { outcome := GeoOutcome.nameError, state := st,
          queries := queries, events := events, nextIdx := idx }
  | cand :: rest, idx, warnings, events, st, queries, _ =>
    -- line 131: if attempt_index > 2 ** (len(addr_snips) - 1)
    let warnings := if threshold < idx then warnings ++ fidelityMsg else warnings
    let events := if threshold < idx then events ++ [WEvent.fidelity] else events
    match st.discovered.lookup cand with
    | some (lat, lng) =>
        -- lines 136-138: cache hit
        { outcome := GeoOutcome.ok lat lng warnings, state := st,
          queries := queries, events := events, nextIdx := idx + 1 }
    | none =>
        if cand ∈ st.noResult then
          -- lines 141-142: known failure, skip
          geoLoopAux provider threshold rest (idx + 1) warnings events st queries (some cand)
        else
          -- lines 156-157: provider call
          match provider cand with
          | (lat, lng) :: _ =>
              -- lines 159-165: success, cache and return
              { outcome := GeoOutcome.ok lat lng warnings,
                state := { st with discovered := dictInsert cand (lat, lng) st.discovered },
                queries := queries ++ [cand], events := events, nextIdx := idx + 1 }
          | [] =>
              -- lines 166-168: no result, warn, record failure, continue
              geoLoopAux provider threshold rest (idx + 1)
                (warnings ++ noResultMsg cand) (events ++ [WEvent.noResult cand])
                { st with noResult := st.noResult ++ [cand] }
                (queries ++ [cand]) (some cand)

/-- Embedding of `_geolocate(addr_snips)` as a whole: build the candidate
sequence and run the loop with empty accumulators on the given cache
state. -/
def geolocate (provider : String → List Coords) (search_depth : Nat)
    (addr_snips : List String) (st : GeoState) : GeoRun :=
  geoLoopAux provider (2 ^ (addr_snips.length - 1))
    (composed_addresses search_depth addr_snips) 0 "" [] st [] none

/-! Combinatorial facts about `combinations` and `combosUpTo`. -/

/-- Membership in `combinations r xs`: exactly the sublists of `xs` of
length `r` (a subset of the snippets kept in original relative order). -/
theorem mem_combinations {α : Type} {r : Nat} {xs l : List α} :
    l ∈ combinations r xs ↔ l.Sublist xs ∧ l.length = r := by
  induction xs generalizing r l with
  | nil =>
    cases r with
    | zero =>
      simp only [combinations, List.mem_singleton, List.sublist_nil]
      constructor
      · rintro rfl; exact ⟨rfl, rfl⟩
      · rintro ⟨rfl, _⟩; rfl
    | succ r =>
      simp only [combinations, List.not_mem_nil, false_iff, not_and, List.sublist_nil]
      rintro rfl
      simp
  | cons x xs ih =>
    cases r with
    | zero =>
      simp only [combinations, List.mem_singleton]
      constructor
      · rintro rfl; exact ⟨List.nil_sublist _, rfl⟩
      · rintro ⟨_, hlen⟩; exact List.length_eq_zero.mp hlen
    | succ r =>
      simp only [combinations, List.mem_append, List.mem_map]
      constructor
      · rintro (⟨l₁, hl₁, rfl⟩ | h)
        · rcases ih.mp hl₁ with ⟨hsub, hlen⟩
          exact ⟨hsub.cons₂ x, by simp [hlen]⟩
        · rcases ih.mp h with ⟨hsub, hlen⟩
          exact ⟨hsub.cons x, hlen⟩
      · rintro ⟨hsub, hlen⟩
        rcases List.sublist_cons_iff.mp hsub with h | ⟨l₁, rfl, hl₁⟩
        · exact Or.inr (ih.mpr ⟨h, hlen⟩)
        · exact Or.inl ⟨l₁, ih.mpr ⟨hl₁, by simpa using hlen⟩, rfl⟩

/-- For a duplicate-free snippet list, no combination is generated
twice. -/
theorem nodup_combinations {α : Type} {xs : List α} (h : xs.Nodup) (r : Nat) :
    (combinations r xs).Nodup := by
  induction xs generalizing r with
  | nil => cases r <;> simp [combinations]
  | cons x xs ih =>
    cases r with
    | zero => simp [combinations]
    | succ r =>
      rcases List.nodup_cons.mp h with ⟨hx, hxs⟩
      rw [combinations]
      refine List.Nodup.append ?_ (ih hxs (r + 1)) ?_
      · exact List.Nodup.map (fun a b hab => by injection hab) (ih hxs r)
      · intro l hl₁ hl₂
        rcases List.mem_map.mp hl₁ with ⟨l₁, _, rfl⟩
        have hsub := (mem_combinations.mp hl₂).1
        exact hx (hsub.subset (List.mem_cons_self x l₁))

theorem combosUpTo_zero {α : Type} (snips : List α) : combosUpTo 0 snips = [] := rfl

theorem combosUpTo_succ {α : Type} (D : Nat) (snips : List α) :
    combosUpTo (D + 1) snips = combosUpTo D snips ++ combinations (D + 1) snips := by
  unfold combosUpTo
  rw [List.range_succ, List.foldl_append]
  rfl

/-- Membership in the accumulated combination list: exactly the non-empty
sublists of the snippet list of length at most the search depth. -/
theorem mem_combosUpTo {α : Type} {D : Nat} {snips l : List α} :
    l ∈ combosUpTo D snips ↔ l.Sublist snips ∧ 1 ≤ l.length ∧ l.length ≤ D := by
  induction D with
  | zero =>
    simp only [combosUpTo_zero, List.not_mem_nil, false_iff, not_and]
    intro _ h
    omega
  | succ D ih =>
    rw [combosUpTo_succ, List.mem_append, ih, mem_combinations]
    constructor
    · rintro (⟨h₁, h₂, h₃⟩ | ⟨h₁, h₂⟩)
      · exact ⟨h₁, h₂, by omega⟩
      · exact ⟨h₁, by omega, by omega⟩
    · rintro ⟨h₁, h₂, h₃⟩
      rcases Nat.lt_or_ge l.length (D + 1) with h | h
      · exact Or.inl ⟨h₁, h₂, by omega⟩
      · exact Or.inr ⟨h₁, by omega⟩

/-- For a duplicate-free snippet list, the accumulated combination list
is duplicate-free: every non-empty subset appears exactly once. -/
theorem nodup_combosUpTo {α : Type} {snips : List α} (h : snips.Nodup) (D : Nat) :
    (combosUpTo D snips).Nodup := by
  induction D with
  | zero => simp [combosUpTo_zero]
  | succ D ih =>
    rw [combosUpTo_succ]
    refine ih.append (nodup_combinations h (D + 1)) ?_
    intro l hl₁ hl₂
    have h₁ := (mem_combosUpTo.mp hl₁).2.2
    have h₂ := (mem_combinations.mp hl₂).2
    omega

/-! Facts about the stable insertion sort. -/

theorem keyLe_total (p q : Nat × Nat) : keyLe p q ∨ keyLe q p := by
  unfold keyLe
  omega

theorem keyLe_trans {p q r : Nat × Nat} (h₁ : keyLe p q) (h₂ : keyLe q r) : keyLe p r := by
  unfold keyLe at *
  omega

theorem perm_insertSorted {α : Type} (key : α → Nat × Nat) (x : α) (l : List α) :
    List.Perm (insertSorted key x l) (x :: l) := by
  induction l with
  | nil => exact List.Perm.refl _
  | cons y ys ih =>
    unfold insertSorted
    by_cases h : keyLe (key y) (key x)
    · rw [if_pos h]
      exact (ih.cons y).trans (List.Perm.swap x y ys)
    · rw [if_neg h]

theorem foldl_insertSorted_perm {α : Type} (key : α → Nat × Nat) (l acc : List α) :
    List.Perm (l.foldl (fun acc x => insertSorted key x acc) acc) (acc ++ l) := by
  induction l generalizing acc with
  | nil => simp
  | cons x xs ih =>
    simp only [List.foldl_cons]
    refine (ih (insertSorted key x acc)).trans ?_
    refine (((perm_insertSorted key x acc).append_right xs).trans ?_)
    exact (List.perm_middle).symm

/-- The sort is a permutation: it loses and invents no candidate. -/
theorem perm_sortByKey {α : Type} (key : α → Nat × Nat) (l : List α) :
    List.Perm (sortByKey key l) l := by
  simpa using foldl_insertSorted_perm key l []

theorem mem_sortByKey {α : Type} {key : α → Nat × Nat} {l : List α} {x : α} :
    x ∈ sortByKey key l ↔ x ∈ l :=
  (perm_sortByKey key l).mem_iff

theorem nodup_sortByKey {α : Type} {key : α → Nat × Nat} {l : List α} (h : l.Nodup) :
    (sortByKey key l).Nodup :=
  ((perm_sortByKey key l).nodup_iff).mpr h

theorem sorted_insertSorted {α : Type} {key : α → Nat × Nat} {l : List α} (x : α)
    (h : List.Pairwise (fun a b => keyLe (key a) (key b)) l) :
    List.Pairwise (fun a b => keyLe (key a) (key b)) (insertSorted key x l) := by
  induction l with
  | nil => simp [insertSorted]
  | cons y ys ih =>
    unfold insertSorted
    rcases List.pairwise_cons.mp h with ⟨hy, hys⟩
    by_cases hc : keyLe (key y) (key x)
    · rw [if_pos hc]
      refine List.pairwise_cons.mpr ⟨?_, ih hys⟩
      intro z hz
      have hz' : z = x ∨ z ∈ ys := by
        simpa using (perm_insertSorted key x ys).mem_iff.mp hz
      rcases hz' with rfl | hz'
      · exact hc
      · exact hy z hz'
    · rw [if_neg hc]
      have hxy : keyLe (key x) (key y) := (keyLe_total (key y) (key x)).resolve_left hc
      refine List.pairwise_cons.mpr ⟨?_, h⟩
      intro z hz
      rcases List.mem_cons.mp hz with rfl | hz'
      · exact hxy
      · exact keyLe_trans hxy (hy z hz')

theorem sorted_foldl_insertSorted {α : Type} {key : α → Nat × Nat} (l : List α)
    {acc : List α} (h : List.Pairwise (fun a b => keyLe (key a) (key b)) acc) :
    List.Pairwise (fun a b => keyLe (key a) (key b))
      (l.foldl (fun acc x => insertSorted key x acc) acc) := by
  induction l generalizing acc with
  | nil => exact h
  | cons x xs ih => exact ih (sorted_insertSorted x h)

/-- The sort output is sorted by the key, lexicographically. -/
theorem sorted_sortByKey {α : Type} (key : α → Nat × Nat) (l : List α) :
    List.Pairwise (fun a b => keyLe (key a) (key b)) (sortByKey key l) :=
  sorted_foldl_insertSorted l List.Pairwise.nil

/-! Transport of the candidate pipeline along a renaming of snippets:
the subset structure and the sort depend only on snippet positions, so an
injective renaming commutes with every stage before the join. -/

theorem combinations_map {α β : Type} (f : α → β) (r : Nat) (xs : List α) :
    combinations r (xs.map f) = (combinations r xs).map (List.map f) := by
  induction xs generalizing r with
  | nil => cases r <;> simp [combinations]
  | cons x xs ih =>
    cases r with
    | zero => simp [combinations]
    | succ r => simp [combinations, ih, List.map_map, Function.comp]

theorem combosUpTo_map {α β : Type} (f : α → β) (D : Nat) (xs : List α) :
    combosUpTo D (xs.map f) = (combosUpTo D xs).map (List.map f) := by
  induction D with
  | zero => rfl
  | succ D ih =>
    rw [combosUpTo_succ, combosUpTo_succ, List.map_append, ih, combinations_map]

theorem indexOf_map {α β : Type} [BEq α] [LawfulBEq α] [BEq β] [LawfulBEq β]
    {f : α → β} (hf : Function.Injective f) (x : α) (xs : List α) :
    List.indexOf (f x) (xs.map f) = List.indexOf x xs := by
  induction xs with
  | nil => rfl
  | cons y ys ih =>
    rw [List.map_cons, List.indexOf_cons, List.indexOf_cons, ih]
    by_cases h : y = x
    · subst h
      simp
    · have h₁ : (f y == f x) = false := by
        simp only [beq_eq_false_iff_ne, ne_eq]
        exact fun hh => h (hf hh)
      have h₂ : (y == x) = false := by simp [h]
      rw [h₁, h₂]

theorem addrKey_map {α β : Type} [BEq α] [LawfulBEq α] [BEq β] [LawfulBEq β]
    {f : α → β} (hf : Function.Injective f) (s l : List α) :
    addrKey (s.map f) (l.map f) = addrKey s l := by
  have hidx : ∀ z : α, List.indexOf (f z) (s.map f) = List.indexOf z s :=
    fun z => indexOf_map hf z s
  unfold addrKey
  cases l with
  | nil => rfl
  | cons y ys =>
    have hmap : List.map ((fun z => List.indexOf z (List.map f s)) ∘ f) ys
        = List.map (fun z => List.indexOf z s) ys :=
      List.map_congr_left (fun z _ => hidx z)
    simp only [List.map_cons, List.map_map, hidx, hmap]

theorem insertSorted_map {α β : Type} (g : α → β) (key : α → Nat × Nat)
    (keyB : β → Nat × Nat) (hk : ∀ a : α, keyB (g a) = key a) (x : α) (l : List α) :
    insertSorted keyB (g x) (l.map g) = (insertSorted key x l).map g := by
  induction l with
  | nil => rfl
  | cons y ys ih =>
    simp only [List.map_cons]
    unfold insertSorted
    rw [hk, hk]
    by_cases h : keyLe (key y) (key x)
    · rw [if_pos h, if_pos h, ih, List.map_cons]
    · rw [if_neg h, if_neg h, List.map_cons, List.map_cons]

theorem sortByKey_map {α β : Type} (g : α → β) (key : α → Nat × Nat)
    (keyB : β → Nat × Nat) (hk : ∀ a : α, keyB (g a) = key a) (l : List α) :
    sortByKey keyB (l.map g) = (sortByKey key l).map g := by
  suffices h : ∀ acc : List α,
      (l.map g).foldl (fun acc x => insertSorted keyB x acc) (acc.map g)
        = (l.foldl (fun acc x => insertSorted key x acc) acc).map g by
    simpa using h []
  induction l with
  | nil => intro acc; rfl
  | cons x xs ih =>
    intro acc
    simp only [List.map_cons, List.foldl_cons]
    rw [insertSorted_map g key keyB hk x acc]
    exact ih (insertSorted key x acc)

theorem three_injective {a b c : String} (hab : a ≠ b) (hac : a ≠ c) (hbc : b ≠ c) :
    Function.Injective (three a b c) := by
  intro i j hij
  fin_cases i <;> fin_cases j <;> simp_all [three]

/-! Claim C1. -/

/-- C1: for every duplicate-free snippet list of length N ≥ 1 and every
search depth D, the candidate sequence built by `_geolocate` is the
`", "`-join of the sequence of exactly the non-empty subsets of size
`1 .. min D N` (each subset kept in original relative order and
enumerated exactly once), sorted primarily by smallest original index
ascending and secondarily by largest original index ascending; in
particular, for snippets `[a, b, c]` with depth 3 the first three
candidates are `a`, `a, b` and `a, c`. -/
theorem c1_candidate_sequence (addr_snips : List String) (D : Nat)
    (hnd : addr_snips.Nodup) (hN : 1 ≤ addr_snips.length) :
    composed_addresses D addr_snips
        = (sortedCombos D addr_snips).map (fun l => String.intercalate ", " l)
      ∧ (∀ l : List String, l ∈ sortedCombos D addr_snips ↔
          l.Sublist addr_snips ∧ l ≠ [] ∧ l.length ≤ min D addr_snips.length)
      ∧ (sortedCombos D addr_snips).Nodup
      ∧ List.Pairwise (fun s t => keyLe (addrKey addr_snips s) (addrKey addr_snips t))
          (sortedCombos D addr_snips)
      ∧ (∀ a b c : String, ([a, b, c] : List String).Nodup →
          (composed_addresses 3 [a, b, c]).take 3 = [a, a ++ ", " ++ b, a ++ ", " ++ c]) := by
  refine ⟨rfl, ?_, ?_, ?_, ?_⟩
  · intro l
    rw [sortedCombos, mem_sortByKey, mem_combosUpTo]
    constructor
    · rintro ⟨h₁, h₂, h₃⟩
      have hle := h₁.length_le
      refine ⟨h₁, ?_, by omega⟩
      intro hnil
      subst hnil
      simp at h₂
    · rintro ⟨h₁, h₂, h₃⟩
      have hlen : 1 ≤ l.length := by
        cases l with
        | nil => exact absurd rfl h₂
        | cons x xs => simp
      exact ⟨h₁, hlen, by omega⟩
  · exact nodup_sortByKey (nodup_combosUpTo hnd D)
  · exact sorted_sortByKey _ _
  · intro a b c h3
    have hab : a ≠ b := by simp [List.nodup_cons] at h3; tauto
    have hac : a ≠ c := by simp [List.nodup_cons] at h3; tauto
    have hbc : b ≠ c := by simp [List.nodup_cons] at h3; tauto
    have hf := three_injective hab hac hbc
    have hmap : List.map (three a b c) ([0, 1, 2] : List (Fin 3)) = [a, b, c] := rfl
    have hbase : sortByKey (addrKey ([0, 1, 2] : List (Fin 3))) (combosUpTo 3 [0, 1, 2])
        = [[0], [0, 1], [0, 2], [0, 1, 2], [1], [1, 2], [2]] := by decide
    have hsc : sortedCombos 3 [a, b, c]
        = List.map (List.map (three a b c))
            [[0], [0, 1], [0, 2], [0, 1, 2], [1], [1, 2], [2]] := by
      unfold sortedCombos
      rw [← hmap, combosUpTo_map,
        sortByKey_map (List.map (three a b c)) (addrKey ([0, 1, 2] : List (Fin 3)))
          (addrKey (List.map (three a b c) [0, 1, 2])) (fun l => addrKey_map hf _ l), hbase]
    show ((sortedCombos 3 [a, b, c]).map (fun l => String.intercalate ", " l)).take 3 = _
    rw [hsc]
    rfl

/-- Witness for C1: its hypotheses hold at the concrete snippet list
`["x"]` with depth 1, and the theorem applies there. -/
theorem c1_candidate_sequence_witness :
    (["x"] : List String).Nodup ∧ 1 ≤ (["x"] : List String).length ∧
    (composed_addresses 1 ["x"]
        = (sortedCombos 1 ["x"]).map (fun l => String.intercalate ", " l)
      ∧ (∀ l : List String, l ∈ sortedCombos 1 ["x"] ↔
          l.Sublist ["x"] ∧ l ≠ [] ∧ l.length ≤ min 1 (["x"] : List String).length)
      ∧ (sortedCombos 1 ["x"]).Nodup
      ∧ List.Pairwise (fun s t => keyLe (addrKey ["x"] s) (addrKey ["x"] t))
          (sortedCombos 1 ["x"])
      ∧ (∀ a b c : String, ([a, b, c] : List String).Nodup →
          (composed_addresses 3 [a, b, c]).take 3 = [a, a ++ ", " ++ b, a ++ ", " ++ c])) :=
  ⟨by decide, by decide, c1_candidate_sequence ["x"] 1 (by decide) (by decide)⟩

/-! Facts about the dict embedding. -/

theorem dictInsert_eq_append {k : String} {v : Coords} {d : List (String × Coords)}
    (h : d.lookup k = none) : dictInsert k v d = d ++ [(k, v)] := by
  induction d with
  | nil => rfl
  | cons p rest ih =>
    obtain ⟨k₁, v₁⟩ := p
    rw [List.lookup_cons] at h
    unfold dictInsert
    by_cases hk : k₁ = k
    · subst hk
      simp at h
    · have hne : k ≠ k₁ := fun hh => hk hh.symm
      have hb : (k == k₁) = false := by simp [hne]
      rw [if_neg hk, ih (by simpa [hb] using h)]
      rfl

theorem lookup_append_left {k : String} {v : Coords} {d e : List (String × Coords)}
    (h : d.lookup k = some v) : (d ++ e).lookup k = some v := by
  induction d with
  | nil => simp at h
  | cons p rest ih =>
    obtain ⟨k₁, v₁⟩ := p
    rw [List.lookup_cons] at h
    rw [List.cons_append, List.lookup_cons]
    cases hk : (k == k₁) with
    | true => simpa [hk] using h
    | false => exact ih (by simpa [hk] using h)

theorem lookup_append_none {k : String} {d e : List (String × Coords)}
    (h : d.lookup k = none) : (d ++ e).lookup k = e.lookup k := by
  induction d with
  | nil => rfl
  | cons p rest ih =>
    obtain ⟨k₁, v₁⟩ := p
    rw [List.lookup_cons] at h
    rw [List.cons_append, List.lookup_cons]
    cases hk : (k == k₁) with
    | true => simp [hk] at h
    | false => exact ih (by simpa [hk] using h)

/-! Step equations for the resolution loop: one per branch of the Python
loop body, each under the branch's guard. -/

theorem geoLoopAux_nil (provider : String → List Coords) (th idx : Nat) (w : String)
    (ev : List WEvent) (st : GeoState) (q : List String) (last : Option String) :
    geoLoopAux provider th [] idx w ev st q last =
      match last with
      | some a =>
          { outcome := GeoOutcome.ok PyFloat.nan PyFloat.nan (w ++ searchFailedMsg),
            state := { st with noResult := st.noResult ++ [a] },
            queries := q, events := ev ++ [WEvent.searchFailed], nextIdx := idx }
      | none =>
          { outcome := GeoOutcome.nameError, state := st,
            queries := q, events := ev ++ [WEvent.searchFailed], nextIdx := idx } := by
  cases last <;> rfl

theorem geoLoopAux_cons_hit {provider : String → List Coords} {th : Nat} {cand : String}
    {rest : List String} {idx : Nat} {w : String} {ev : List WEvent} {st : GeoState}
    {q : List String} {last : Option String} {lat lng : PyFloat}
    (h : st.discovered.lookup cand = some (lat, lng)) :
    geoLoopAux provider th (cand :: rest) idx w ev st q last =
      { outcome := GeoOutcome.ok lat lng (if th < idx then w ++ fidelityMsg else w),
        state := st, queries := q,
        events := if th < idx then ev ++ [WEvent.fidelity] else ev,
        nextIdx := idx + 1 } := by
  rw [geoLoopAux, h]

theorem geoLoopAux_cons_skip {provider : String → List Coords} {th : Nat} {cand : String}
    {rest : List String} {idx : Nat} {w : String} {ev : List WEvent} {st : GeoState}
    {q : List String} {last : Option String}
    (h : st.discovered.lookup cand = none) (h₂ : cand ∈ st.noResult) :
    geoLoopAux provider th (cand :: rest) idx w ev st q last =
      geoLoopAux provider th rest (idx + 1) (if th < idx then w ++ fidelityMsg else w)
        (if th < idx then ev ++ [WEvent.fidelity] else ev) st q (some cand) := by
  rw [geoLoopAux, h]
  simp [h₂]

theorem geoLoopAux_cons_success {provider : String → List Coords} {th : Nat} {cand : String}
    {rest : List String} {idx : Nat} {w : String} {ev : List WEvent} {st : GeoState}
    {q : List String} {last : Option String} {lat lng : PyFloat} {tl : List Coords}
    (h : st.discovered.lookup cand = none) (h₂ : cand ∉ st.noResult)
    (h₃ : provider cand = (lat, lng) :: tl) :
    geoLoopAux provider th (cand :: rest) idx w ev st q last =
      { outcome := GeoOutcome.ok lat lng (if th < idx then w ++ fidelityMsg else w),
        state := { st with discovered := dictInsert cand (lat, lng) st.discovered },
        queries := q ++ [cand],
        events := if th < idx then ev ++ [WEvent.fidelity] else ev,
        nextIdx := idx + 1 } := by
  rw [geoLoopAux, h]
  simp [h₂, h₃]

theorem geoLoopAux_cons_fail {provider : String → List Coords} {th : Nat} {cand : String}
    {rest : List String} {idx : Nat} {w : String} {ev : List WEvent} {st : GeoState}
    {q : List String} {last : Option String}
    (h : st.discovered.lookup cand = none) (h₂ : cand ∉ st.noResult)
    (h₃ : provider cand = []) :
    geoLoopAux provider th (cand :: rest) idx w ev st q last =
      geoLoopAux provider th rest (idx + 1)
        ((if th < idx then w ++ fidelityMsg else w) ++ noResultMsg cand)
        ((if th < idx then ev ++ [WEvent.fidelity] else ev) ++ [WEvent.noResult cand])
        { st with noResult := st.noResult ++ [cand] } (q ++ [cand]) (some cand) := by
  rw [geoLoopAux, h]
  simp [h₂, h₃]

/-! The master structural lemma about one run of the loop: how the traces
and the cache state after the run relate to those before it. -/

/-- Master structure of a run: the queries trace grows by a
duplicate-free list of addresses that were in neither cache at entry; the
negative cache grows by a sublist of those (the failed queries) plus at
most one unconditional final append; the positive cache grows by at most
one entry, whose key was absent; the event trace grows at the end, and
every `noResult` event added belongs to a query added; the loop index
never decreases. -/
theorem geoLoopAux_master (provider : String → List Coords) (th : Nat) :
    ∀ (cands : List String) (idx : Nat) (w : String) (ev : List WEvent) (st : GeoState)
      (q : List String) (last : Option String),
    ∃ (qnew loopNew lastE : List String) (dnew : List (String × Coords)) (evnew : List WEvent),
      (geoLoopAux provider th cands idx w ev st q last).queries = q ++ qnew
      ∧ (geoLoopAux provider th cands idx w ev st q last).state.noResult
          = st.noResult ++ loopNew ++ lastE
      ∧ (geoLoopAux provider th cands idx w ev st q last).state.discovered
          = st.discovered ++ dnew
      ∧ (geoLoopAux provider th cands idx w ev st q last).events = ev ++ evnew
      ∧ qnew.Nodup
      ∧ (∀ x ∈ qnew, x ∉ st.noResult ∧ st.discovered.lookup x = none)
      ∧ loopNew.Sublist qnew
      ∧ (lastE = [] ∨ ∃ a, lastE = [a])
      ∧ (dnew = [] ∨ ∃ K kv, dnew = [(K, kv)] ∧ st.discovered.lookup K = none)
      ∧ (∀ a, WEvent.noResult a ∈ evnew → a ∈ qnew)
      ∧ idx ≤ (geoLoopAux provider th cands idx w ev st q last).nextIdx := by
  intro cands
  induction cands with
  | nil =>
    intro idx w ev st q last
    rw [geoLoopAux_nil]
    cases last with
    | some a =>
      refine ⟨[], [], [a], [], [WEvent.searchFailed], ?_, ?_, ?_, ?_, ?_, ?_, ?_, ?_, ?_, ?_, ?_⟩
        <;> simp
    | none =>
      refine ⟨[], [], [], [], [WEvent.searchFailed], ?_, ?_, ?_, ?_, ?_, ?_, ?_, ?_, ?_, ?_, ?_⟩
        <;> simp
  | cons cand rest ih =>
    intro idx w ev st q last
    cases hl : st.discovered.lookup cand with
    | some p =>
      obtain ⟨lat, lng⟩ := p
      rw [geoLoopAux_cons_hit hl]
      refine ⟨[], [], [], [], if th < idx then [WEvent.fidelity] else [],
        ?_, ?_, ?_, ?_, ?_, ?_, ?_, ?_, ?_, ?_, ?_⟩
      · simp
      · simp
      · simp
      · by_cases hth : th < idx <;> simp [hth]
      · simp
      · simp
      · simp
      · exact Or.inl rfl
      · exact Or.inl rfl
      · intro a ha
        by_cases hth : th < idx <;> simp [hth] at ha
      · simp
    | none =>
      by_cases hm : cand ∈ st.noResult
      · rw [geoLoopAux_cons_skip hl hm]
        obtain ⟨qnew, loopNew, lastE, dnew, evnew, h₁, h₂, h₃, h₄, h₅, h₆, h₇, h₈, h₉, h₁₀, h₁₁⟩ :=
          ih (idx + 1) (if th < idx then w ++ fidelityMsg else w)
            (if th < idx then ev ++ [WEvent.fidelity] else ev) st q (some cand)
        refine ⟨qnew, loopNew, lastE, dnew,
          (if th < idx then [WEvent.fidelity] else []) ++ evnew,
          h₁, h₂, h₃, ?_, h₅, h₆, h₇, h₈, h₉, ?_, by omega⟩
        · rw [h₄]
          by_cases hth : th < idx <;> simp [hth]
        · intro a ha
          rcases List.mem_append.mp ha with ha | ha
          · by_cases hth : th < idx <;> simp [hth] at ha
          · exact h₁₀ a ha
      · cases hp : provider cand with
        | cons c tl =>
          obtain ⟨lat, lng⟩ := c
          rw [geoLoopAux_cons_success hl hm hp]
          refine ⟨[cand], [], [], [(cand, (lat, lng))],
            if th < idx then [WEvent.fidelity] else [],
            ?_, ?_, ?_, ?_, ?_, ?_, ?_, ?_, ?_, ?_, ?_⟩
          · simp
          · simp
          · simpa using dictInsert_eq_append hl
          · by_cases hth : th < idx <;> simp [hth]
          · simp
          · intro x hx
            rcases List.mem_singleton.mp hx with rfl
            exact ⟨hm, hl⟩
          · simp
          · exact Or.inl rfl
          · exact Or.inr ⟨cand, (lat, lng), rfl, hl⟩
          · intro a ha
            by_cases hth : th < idx <;> simp [hth] at ha
          · simp
        | nil =>
          rw [geoLoopAux_cons_fail hl hm hp]
          obtain ⟨qnew, loopNew, lastE, dnew, evnew, h₁, h₂, h₃, h₄, h₅, h₆, h₇, h₈, h₉, h₁₀, h₁₁⟩ :=
            ih (idx + 1) ((if th < idx then w ++ fidelityMsg else w) ++ noResultMsg cand)
              ((if th < idx then ev ++ [WEvent.fidelity] else ev) ++ [WEvent.noResult cand])
              { st with noResult := st.noResult ++ [cand] } (q ++ [cand]) (some cand)

          have hc : cand ∉ qnew := by
            intro hcq
            have := (h₆ cand hcq).1
            simp at this
          refine ⟨cand :: qnew, cand :: loopNew, lastE, dnew,
            (if th < idx then [WEvent.fidelity] else []) ++ WEvent.noResult cand :: evnew,
            ?_, ?_, ?_, ?_, ?_, ?_, ?_, h₈, ?_, ?_, by omega⟩
          · rw [h₁]
            simp
          · rw [h₂]
            simp
          · rw [h₃]
          · rw [h₄]
            by_cases hth : th < idx <;> simp [hth]
          · exact List.nodup_cons.mpr ⟨hc, h₅⟩
          · intro x hx
            rcases List.mem_cons.mp hx with rfl | hx
            · exact ⟨hm, hl⟩
            · have h₆x := h₆ x hx
              refine ⟨fun hxn => h₆x.1 ?_, h₆x.2⟩
              simp [hxn]
          · exact h₇.cons₂ cand
          · exact h₉
          · intro a ha
            rcases List.mem_append.mp ha with ha | ha
            · by_cases hth : th < idx <;> simp [hth] at ha
            · rcases List.mem_cons.mp ha with ha | ha
              · have hac : a = cand := WEvent.noResult.inj ha
                subst hac
                exact List.mem_cons_self a qnew
              · exact List.mem_cons_of_mem cand (h₁₀ a ha)

theorem lookup_append_single_ne {x k : String} {v : Coords} {d : List (String × Coords)}
    (hne : x ≠ k) : (d ++ [(k, v)]).lookup x = d.lookup x := by
  cases hd : d.lookup x with
  | some v₁ => exact lookup_append_left hd
  | none =>
    rw [lookup_append_none hd]
    have hb : (x == k) = false := by simp [hne]
    simp [List.lookup_cons, hb]

theorem getLastD_cons : ∀ (l : List String) (c a : String),
    (c :: l).getLast?.getD a = l.getLast?.getD c := by
  intro l
  induction l with
  | nil => intro c a; rfl
  | cons b l ih =>
    intro c a
    rw [List.getLast?_cons_cons, ih b a, ih b c]

/-- Addresses already in the negative cache at entry never acquire a
positive-cache entry during a run: their `discovered_addrs` lookup is
unchanged. -/
theorem geoLoopAux_disc_stable (provider : String → List Coords) (th : Nat) :
    ∀ (cands : List String) (idx : Nat) (w : String) (ev : List WEvent) (st : GeoState)
      (q : List String) (last : Option String) (x : String), x ∈ st.noResult →
    (geoLoopAux provider th cands idx w ev st q last).state.discovered.lookup x
      = st.discovered.lookup x := by
  intro cands
  induction cands with
  | nil =>
    intro idx w ev st q last x hx
    rw [geoLoopAux_nil]
    cases last <;> rfl
  | cons cand rest ih =>
    intro idx w ev st q last x hx
    cases hl : st.discovered.lookup cand with
    | some p =>
      obtain ⟨lat, lng⟩ := p
      rw [geoLoopAux_cons_hit hl]
    | none =>
      by_cases hm : cand ∈ st.noResult
      · rw [geoLoopAux_cons_skip hl hm]
        exact ih _ _ _ _ _ _ x hx
      · cases hp : provider cand with
        | cons c tl =>
          obtain ⟨lat, lng⟩ := c
          rw [geoLoopAux_cons_success hl hm hp]
          have hxc : x ≠ cand := fun hh => hm (hh ▸ hx)
          show (dictInsert cand (lat, lng) st.discovered).lookup x = st.discovered.lookup x
          rw [dictInsert_eq_append hl]
          exact lookup_append_single_ne hxc
        | nil =>
          rw [geoLoopAux_cons_fail hl hm hp]
          exact ih _ _ _ _ _ _ x (by simp [hx])

/-- Post-condition of a run that returns `ok lat lng`: either some
candidate `A` resolves to `(lat, lng)` in the final positive cache and
every candidate before `A` is negatively cached and positively unknown at
exit, or the whole sequence was consumed (every candidate negatively
cached and positively unknown at exit, the positive cache unchanged) and
the coordinates are the `nan` sentinels. -/
theorem geoLoopAux_ok_post (provider : String → List Coords) (th : Nat) :
    ∀ (cands : List String) (idx : Nat) (w : String) (ev : List WEvent) (st : GeoState)
      (q : List String) (last : Option String) (lat lng : PyFloat) (wf : String),
    (geoLoopAux provider th cands idx w ev st q last).outcome = GeoOutcome.ok lat lng wf →
    (∃ pre A post, cands = pre ++ A :: post
        ∧ (geoLoopAux provider th cands idx w ev st q last).state.discovered.lookup A
            = some (lat, lng)
        ∧ ∀ x ∈ pre,
            (geoLoopAux provider th cands idx w ev st q last).state.discovered.lookup x = none
            ∧ x ∈ (geoLoopAux provider th cands idx w ev st q last).state.noResult)
    ∨ ((∀ x ∈ cands,
          (geoLoopAux provider th cands idx w ev st q last).state.discovered.lookup x = none
          ∧ x ∈ (geoLoopAux provider th cands idx w ev st q last).state.noResult)
        ∧ lat = PyFloat.nan ∧ lng = PyFloat.nan) := by
  intro cands
  induction cands with
  | nil =>
    intro idx w ev st q last lat lng wf hout
    rw [geoLoopAux_nil] at hout ⊢
    cases last with
    | some a =>
      simp only [GeoOutcome.ok.injEq] at hout
      exact Or.inr ⟨by simp, hout.1.symm, hout.2.1.symm⟩
    | none => simp at hout
  | cons cand rest ih =>
    intro idx w ev st q last lat lng wf hout
    cases hl : st.discovered.lookup cand with
    | some p =>
      obtain ⟨lat₀, lng₀⟩ := p
      rw [geoLoopAux_cons_hit hl] at hout ⊢
      simp only [GeoOutcome.ok.injEq] at hout
      refine Or.inl ⟨[], cand, rest, by simp, ?_, by simp⟩
      rw [hl, hout.1, hout.2.1]
    | none =>
      by_cases hm : cand ∈ st.noResult
      · rw [geoLoopAux_cons_skip hl hm] at hout ⊢
        have hcl : (geoLoopAux provider th rest (idx + 1)
            (if th < idx then w ++ fidelityMsg else w)
            (if th < idx then ev ++ [WEvent.fidelity] else ev) st q
            (some cand)).state.discovered.lookup cand = none := by
          rw [geoLoopAux_disc_stable provider th rest _ _ _ _ _ _ cand hm]
          exact hl
        have hcm : cand ∈ (geoLoopAux provider th rest (idx + 1)
            (if th < idx then w ++ fidelityMsg else w)
            (if th < idx then ev ++ [WEvent.fidelity] else ev) st q
            (some cand)).state.noResult := by
          obtain ⟨_, _, _, _, _, _, h₂, _⟩ :=
            geoLoopAux_master provider th rest (idx + 1)
              (if th < idx then w ++ fidelityMsg else w)
              (if th < idx then ev ++ [WEvent.fidelity] else ev) st q (some cand)
          rw [h₂]
          simp [hm]
        rcases ih _ _ _ _ _ _ lat lng wf hout with ⟨pre, A, post, heq, hA, hpre⟩ | ⟨hall, h₁, h₂⟩
        · refine Or.inl ⟨cand :: pre, A, post, by rw [heq]; rfl, hA, ?_⟩
          intro x hx
          rcases List.mem_cons.mp hx with rfl | hx
          · exact ⟨hcl, hcm⟩
          · exact hpre x hx
        · refine Or.inr ⟨?_, h₁, h₂⟩
          intro x hx
          rcases List.mem_cons.mp hx with rfl | hx
          · exact ⟨hcl, hcm⟩
          · exact hall x hx
      · cases hp : provider cand with
        | cons c tl =>
          obtain ⟨lat₀, lng₀⟩ := c
          rw [geoLoopAux_cons_success hl hm hp] at hout ⊢
          simp only [GeoOutcome.ok.injEq] at hout
          refine Or.inl ⟨[], cand, rest, by simp, ?_, by simp⟩
          show (dictInsert cand (lat₀, lng₀) st.discovered).lookup cand = some (lat, lng)
          rw [dictInsert_eq_append hl, lookup_append_none hl, hout.1, hout.2.1]
          simp [List.lookup_cons]
        | nil =>
          rw [geoLoopAux_cons_fail hl hm hp] at hout ⊢
          have hmem : cand ∈ ({ st with noResult := st.noResult ++ [cand]} : GeoState).noResult := by
            simp
          have hcl : (geoLoopAux provider th rest (idx + 1)
              ((if th < idx then w ++ fidelityMsg else w) ++ noResultMsg cand)
              ((if th < idx then ev ++ [WEvent.fidelity] else ev) ++ [WEvent.noResult cand])
              { st with noResult := st.noResult ++ [cand] } (q ++ [cand])
              (some cand)).state.discovered.lookup cand = none := by
            rw [geoLoopAux_disc_stable provider th rest _ _ _ _ _ _ cand hmem]
            exact hl
          have hcm : cand ∈ (geoLoopAux provider th rest (idx + 1)
              ((if th < idx then w ++ fidelityMsg else w) ++ noResultMsg cand)
              ((if th < idx then ev ++ [WEvent.fidelity] else ev) ++ [WEvent.noResult cand])
              { st with noResult := st.noResult ++ [cand] } (q ++ [cand])
              (some cand)).state.noResult := by
            obtain ⟨_, _, _, _, _, _, h₂, _⟩ :=
              geoLoopAux_master provider th rest (idx + 1)
                ((if th < idx then w ++ fidelityMsg else w) ++ noResultMsg cand)
                ((if th < idx then ev ++ [WEvent.fidelity] else ev) ++ [WEvent.noResult cand])
                { st with noResult := st.noResult ++ [cand] } (q ++ [cand]) (some cand)
            rw [h₂]
            simp
          rcases ih _ _ _ _ _ _ lat lng wf hout with ⟨pre, A, post, heq, hA, hpre⟩ | ⟨hall, h₁, h₂⟩
          · refine Or.inl ⟨cand :: pre, A, post, by rw [heq]; rfl, hA, ?_⟩
            intro x hx
            rcases List.mem_cons.mp hx with rfl | hx
            · exact ⟨hcl, hcm⟩
            · exact hpre x hx
          · refine Or.inr ⟨?_, h₁, h₂⟩
            intro x hx
            rcases List.mem_cons.mp hx with rfl | hx
            · exact ⟨hcl, hcm⟩
            · exact hall x hx

/-- Running the loop on a sequence whose prefix is entirely negatively
cached (and positively unknown) up to a positively cached candidate `A`
returns the cached coordinates of `A`, issues no provider query, and
leaves the state untouched. -/
theorem geoLoopAux_skip_to_hit (provider : String → List Coords) (th : Nat) :
    ∀ (pre : List String) (A : String) (post : List String) (idx : Nat) (w : String)
      (ev : List WEvent) (st : GeoState) (q : List String) (last : Option String)
      (lat lng : PyFloat),
      (∀ x ∈ pre, st.discovered.lookup x = none ∧ x ∈ st.noResult) →
      st.discovered.lookup A = some (lat, lng) →
      ∃ wf, (geoLoopAux provider th (pre ++ A :: post) idx w ev st q last).outcome
              = GeoOutcome.ok lat lng wf
        ∧ (geoLoopAux provider th (pre ++ A :: post) idx w ev st q last).queries = q
        ∧ (geoLoopAux provider th (pre ++ A :: post) idx w ev st q last).state = st := by
  intro pre
  induction pre with
  | nil =>
    intro A post idx w ev st q last lat lng _ hA
    rw [List.nil_append, geoLoopAux_cons_hit hA]
    exact ⟨_, rfl, rfl, rfl⟩
  | cons x pre ih =>
    intro A post idx w ev st q last lat lng hpre hA
    obtain ⟨hxl, hxm⟩ := hpre x (List.mem_cons_self x pre)
    rw [List.cons_append, geoLoopAux_cons_skip hxl hxm]
    exact ih A post (idx + 1) _ _ st q (some x) lat lng
      (fun y hy => hpre y (List.mem_cons_of_mem x hy)) hA

/-- Running the loop on a non-empty sequence that is entirely negatively
cached (and positively unknown) skips every candidate, returns the
`(nan, nan)` failure, and issues no provider query. Stated with the
Python loop variable already bound (`last = some a`), which covers every
suffix reached after at least one iteration. -/
theorem geoLoopAux_all_skip (provider : String → List Coords) (th : Nat) :
    ∀ (cands : List String) (idx : Nat) (w : String) (ev : List WEvent) (st : GeoState)
      (q : List String) (a : String),
      (∀ x ∈ cands, st.discovered.lookup x = none ∧ x ∈ st.noResult) →
      ∃ wf, (geoLoopAux provider th cands idx w ev st q (some a)).outcome
              = GeoOutcome.ok PyFloat.nan PyFloat.nan wf
        ∧ (geoLoopAux provider th cands idx w ev st q (some a)).queries = q := by
  intro cands
  induction cands with
  | nil =>
    intro idx w ev st q a _
    rw [geoLoopAux_nil]
    exact ⟨_, rfl, rfl⟩
  | cons cand rest ih =>
    intro idx w ev st q a hall
    obtain ⟨hxl, hxm⟩ := hall cand (List.mem_cons_self cand rest)
    rw [geoLoopAux_cons_skip hxl hxm]
    exact ih (idx + 1) _ _ st q cand (fun y hy => hall y (List.mem_cons_of_mem cand hy))

/-- Exhaustion: when every remaining candidate is negatively cached or
gets an empty provider answer (and none is positively cached), the run
returns the `(nan, nan)` sentinels, its warning ends in
`"Search Failed!;"`, and the last candidate (or, for an empty remainder,
the already-bound loop variable) is appended to the negative cache at the
very end. -/
theorem geoLoopAux_exhaust (provider : String → List Coords) (th : Nat) :
    ∀ (cands : List String) (idx : Nat) (w : String) (ev : List WEvent) (st : GeoState)
      (q : List String) (a : String),
      (∀ c ∈ cands, st.discovered.lookup c = none
        ∧ (c ∈ st.noResult ∨ provider c = [])) →
      ∃ wf p pre₀,
        (geoLoopAux provider th cands idx w ev st q (some a)).outcome
            = GeoOutcome.ok PyFloat.nan PyFloat.nan wf
        ∧ wf = p ++ searchFailedMsg
        ∧ (geoLoopAux provider th cands idx w ev st q (some a)).state.noResult
            = pre₀ ++ [cands.getLast?.getD a] := by
  intro cands
  induction cands with
  | nil =>
    intro idx w ev st q a _
    rw [geoLoopAux_nil]
    exact ⟨_, w, st.noResult, rfl, rfl, rfl⟩
  | cons cand rest ih =>
    intro idx w ev st q a hall
    obtain ⟨hcl, hcm⟩ := hall cand (List.mem_cons_self cand rest)
    rw [getLastD_cons]
    rcases hcm with hcm | hcp
    · rw [geoLoopAux_cons_skip hcl hcm]
      exact ih (idx + 1) _ _ st q cand (fun y hy => hall y (List.mem_cons_of_mem cand hy))
    · by_cases hm : cand ∈ st.noResult
      · rw [geoLoopAux_cons_skip hcl hm]
        exact ih (idx + 1) _ _ st q cand (fun y hy => hall y (List.mem_cons_of_mem cand hy))
      · rw [geoLoopAux_cons_fail hcl hm hcp]
        refine ih (idx + 1) _ _ { st with noResult := st.noResult ++ [cand] } (q ++ [cand])
          cand (fun y hy => ?_)
        obtain ⟨hyl, hym⟩ := hall y (List.mem_cons_of_mem cand hy)
        refine ⟨hyl, ?_⟩
        rcases hym with hym | hym
        · exact Or.inl (by simp [hym])
        · exact Or.inr hym

/-- Fidelity accounting: across a run, the number of fidelity events
appended equals the number of loop iterations begun at an index
exceeding the threshold. -/
theorem geoLoopAux_fidelity_count (provider : String → List Coords) (th : Nat) :
    ∀ (cands : List String) (idx : Nat) (w : String) (ev : List WEvent) (st : GeoState)
      (q : List String) (last : Option String),
    (geoLoopAux provider th cands idx w ev st q last).events.count WEvent.fidelity
      = ev.count WEvent.fidelity
        + (List.range' idx ((geoLoopAux provider th cands idx w ev st q last).nextIdx - idx)).countP
            (fun j => decide (th < j)) := by
  intro cands
  induction cands with
  | nil =>
    intro idx w ev st q last
    rw [geoLoopAux_nil]
    cases last <;> simp
  | cons cand rest ih =>
    intro idx w ev st q last
    have hstep : ∀ (r : GeoRun), idx + 1 ≤ r.nextIdx →
        r.events.count WEvent.fidelity
          = (if th < idx then ev ++ [WEvent.fidelity] else ev).count WEvent.fidelity
            + (List.range' (idx + 1) (r.nextIdx - (idx + 1))).countP (fun j => decide (th < j)) →
        r.events.count WEvent.fidelity
          = ev.count WEvent.fidelity
            + (List.range' idx (r.nextIdx - idx)).countP (fun j => decide (th < j)) := by
      intro r hge hcount
      have hsplit : r.nextIdx - idx = (r.nextIdx - (idx + 1)) + 1 := by omega
      rw [hsplit, List.range'_succ]
      rw [hcount]
      by_cases hth : th < idx <;> simp [hth] <;> omega
    cases hl : st.discovered.lookup cand with
    | some p =>
      obtain ⟨lat, lng⟩ := p
      rw [geoLoopAux_cons_hit hl]
      show (if th < idx then ev ++ [WEvent.fidelity] else ev).count WEvent.fidelity
        = ev.count WEvent.fidelity
          + (List.range' idx (idx + 1 - idx)).countP (fun j => decide (th < j))
      have : idx + 1 - idx = 1 := by omega
      rw [this, List.range'_one]
      by_cases hth : th < idx <;> simp [hth]
    | none =>
      by_cases hm : cand ∈ st.noResult
      · rw [geoLoopAux_cons_skip hl hm]
        refine hstep _ ?_ (ih (idx + 1) _ _ st q (some cand))
        obtain ⟨_, _, _, _, _, _, _, _, _, _, _, _, _, _, _, h₁₁⟩ :=
          geoLoopAux_master provider th rest (idx + 1)
            (if th < idx then w ++ fidelityMsg else w)
            (if th < idx then ev ++ [WEvent.fidelity] else ev) st q (some cand)
        exact h₁₁
      · cases hp : provider cand with
        | cons c tl =>
          obtain ⟨lat, lng⟩ := c
          rw [geoLoopAux_cons_success hl hm hp]
          show (if th < idx then ev ++ [WEvent.fidelity] else ev).count WEvent.fidelity
            = ev.count WEvent.fidelity
              + (List.range' idx (idx + 1 - idx)).countP (fun j => decide (th < j))
          have : idx + 1 - idx = 1 := by omega
          rw [this, List.range'_one]
          by_cases hth : th < idx <;> simp [hth]
        | nil =>
          rw [geoLoopAux_cons_fail hl hm hp]
          have hihc := ih (idx + 1)
            ((if th < idx then w ++ fidelityMsg else w) ++ noResultMsg cand)
            ((if th < idx then ev ++ [WEvent.fidelity] else ev) ++ [WEvent.noResult cand])
            { st with noResult := st.noResult ++ [cand] } (q ++ [cand]) (some cand)
          have hfix : ((if th < idx then ev ++ [WEvent.fidelity] else ev)
              ++ [WEvent.noResult cand]).count WEvent.fidelity
              = (if th < idx then ev ++ [WEvent.fidelity] else ev).count WEvent.fidelity := by
            simp
          rw [hfix] at hihc
          refine hstep _ ?_ hihc
          obtain ⟨_, _, _, _, _, _, _, _, _, _, _, _, _, _, _, h₁₁⟩ :=
            geoLoopAux_master provider th rest (idx + 1)
              ((if th < idx then w ++ fidelityMsg else w) ++ noResultMsg cand)
              ((if th < idx then ev ++ [WEvent.fidelity] else ev) ++ [WEvent.noResult cand])
              { st with noResult := st.noResult ++ [cand] } (q ++ [cand]) (some cand)
          exact h₁₁

/-- Warning rendering: the warning string that an `ok` outcome carries is
the warning accumulator at entry followed by the rendered text of exactly
the events appended during the run, in order. -/
theorem geoLoopAux_warnings_render (provider : String → List Coords) (th : Nat) :
    ∀ (cands : List String) (idx : Nat) (w : String) (ev : List WEvent) (st : GeoState)
      (q : List String) (last : Option String) (lat lng : PyFloat) (wf : String),
    (geoLoopAux provider th cands idx w ev st q last).outcome = GeoOutcome.ok lat lng wf →
    ∃ evnew, (geoLoopAux provider th cands idx w ev st q last).events = ev ++ evnew
      ∧ wf = w ++ renderAll evnew := by
  intro cands
  induction cands with
  | nil =>
    intro idx w ev st q last lat lng wf hout
    rw [geoLoopAux_nil] at hout ⊢
    cases last with
    | some a =>
      simp only [GeoOutcome.ok.injEq] at hout
      exact ⟨[WEvent.searchFailed], rfl,
        by rw [← hout.2.2]; simp [renderAll, WEvent.render]⟩
    | none => simp at hout
  | cons cand rest ih =>
    intro idx w ev st q last lat lng wf hout
    cases hl : st.discovered.lookup cand with
    | some p =>
      obtain ⟨lat₀, lng₀⟩ := p
      rw [geoLoopAux_cons_hit hl] at hout ⊢
      simp only [GeoOutcome.ok.injEq] at hout
      refine ⟨if th < idx then [WEvent.fidelity] else [], ?_, ?_⟩
      · by_cases hth : th < idx <;> simp [hth]
      · rw [← hout.2.2]
        by_cases hth : th < idx <;> simp [hth, renderAll, WEvent.render]
    | none =>
      by_cases hm : cand ∈ st.noResult
      · rw [geoLoopAux_cons_skip hl hm] at hout ⊢
        obtain ⟨evnew, hev, hwf⟩ := ih _ _ _ _ _ _ lat lng wf hout
        refine ⟨(if th < idx then [WEvent.fidelity] else []) ++ evnew, ?_, ?_⟩
        · rw [hev]
          by_cases hth : th < idx <;> simp [hth]
        · rw [hwf]
          by_cases hth : th < idx <;>
            simp [hth, renderAll, WEvent.render, String.append_assoc]
      · cases hp : provider cand with
        | cons c tl =>
          obtain ⟨lat₀, lng₀⟩ := c
          rw [geoLoopAux_cons_success hl hm hp] at hout ⊢
          simp only [GeoOutcome.ok.injEq] at hout
          refine ⟨if th < idx then [WEvent.fidelity] else [], ?_, ?_⟩
          · by_cases hth : th < idx <;> simp [hth]
          · rw [← hout.2.2]
            by_cases hth : th < idx <;> simp [hth, renderAll, WEvent.render]
        | nil =>
          rw [geoLoopAux_cons_fail hl hm hp] at hout ⊢
          obtain ⟨evnew, hev, hwf⟩ := ih _ _ _ _ _ _ lat lng wf hout
          refine ⟨(if th < idx then [WEvent.fidelity] else [])
            ++ WEvent.noResult cand :: evnew, ?_, ?_⟩
          · rw [hev]
            by_cases hth : th < idx <;> simp [hth]
          · rw [hwf]
            by_cases hth : th < idx <;>
              simp [hth, renderAll, WEvent.render, String.append_assoc]

theorem combosUpTo_nil (D : Nat) : combosUpTo D ([] : List String) = [] := by
  induction D with
  | zero => rfl
  | succ D ih =>
    rw [combosUpTo_succ, ih]
    rfl

theorem getLast?_cons_eq (c : String) (l : List String) :
    (c :: l).getLast? = some (l.getLast?.getD c) := by
  induction l generalizing c with
  | nil => rfl
  | cons b l ih =>
    rw [List.getLast?_cons_cons, ih b]
    rfl

/-- The candidate sequence of a non-empty snippet list at positive depth
is non-empty: the singleton subset of the first snippet is enumerated. -/
theorem composed_addresses_ne_nil {D : Nat} {addr_snips : List String}
    (hne : addr_snips ≠ []) (hD : 1 ≤ D) : composed_addresses D addr_snips ≠ [] := by
  obtain ⟨s, rest, rfl⟩ : ∃ s rest, addr_snips = s :: rest := by
    cases addr_snips with
    | nil => exact absurd rfl hne
    | cons s rest => exact ⟨s, rest, rfl⟩
  have hm : [s] ∈ sortedCombos D (s :: rest) := by
    rw [sortedCombos, mem_sortByKey, mem_combosUpTo]
    exact ⟨(List.nil_sublist rest).cons₂ s, by simp, by simpa using hD⟩
  intro hc
  unfold composed_addresses at hc
  rw [List.map_eq_nil_iff] at hc
  rw [sortedCombos] at hm
  rw [hc] at hm
  exact List.not_mem_nil [s] hm

/-- Exhaustion from the start of the loop (loop variable still unbound),
for a non-empty candidate sequence: when every candidate is negatively
cached or receives an empty provider answer (and none is positively
cached), the run returns `(nan, nan)`, the warning ends in
`"Search Failed!;"`, and the final candidate is appended to the negative
cache. -/
theorem geoLoopAux_exhaust_start (provider : String → List Coords) (th : Nat)
    (cands : List String) (idx : Nat) (w : String) (ev : List WEvent) (st : GeoState)
    (q : List String) (hne : cands ≠ [])
    (hall : ∀ c ∈ cands, st.discovered.lookup c = none
      ∧ (c ∈ st.noResult ∨ provider c = [])) :
    ∃ wf p pre₀ lastC,
      cands.getLast? = some lastC
      ∧ (geoLoopAux provider th cands idx w ev st q none).outcome
          = GeoOutcome.ok PyFloat.nan PyFloat.nan wf
      ∧ wf = p ++ searchFailedMsg
      ∧ (geoLoopAux provider th cands idx w ev st q none).state.noResult
          = pre₀ ++ [lastC] := by
  cases cands with
  | nil => exact absurd rfl hne
  | cons cand rest =>
    obtain ⟨hcl, hcm⟩ := hall cand (List.mem_cons_self cand rest)
    rw [getLast?_cons_eq]
    rcases hcm with hcm | hcp
    · rw [geoLoopAux_cons_skip hcl hcm]
      obtain ⟨wf, p, pre₀, hout, hwf, hnr⟩ :=
        geoLoopAux_exhaust provider th rest (idx + 1) _ _ st q cand
          (fun y hy => hall y (List.mem_cons_of_mem cand hy))
      exact ⟨wf, p, pre₀, _, rfl, hout, hwf, hnr⟩
    · by_cases hm : cand ∈ st.noResult
      · rw [geoLoopAux_cons_skip hcl hm]
        obtain ⟨wf, p, pre₀, hout, hwf, hnr⟩ :=
          geoLoopAux_exhaust provider th rest (idx + 1) _ _ st q cand
            (fun y hy => hall y (List.mem_cons_of_mem cand hy))
        exact ⟨wf, p, pre₀, _, rfl, hout, hwf, hnr⟩
      · rw [geoLoopAux_cons_fail hcl hm hcp]
        have hall' : ∀ y ∈ rest,
            ({ st with noResult := st.noResult ++ [cand] } : GeoState).discovered.lookup y = none
            ∧ (y ∈ ({ st with noResult := st.noResult ++ [cand] } : GeoState).noResult
              ∨ provider y = []) := by
          intro y hy
          obtain ⟨hyl, hym⟩ := hall y (List.mem_cons_of_mem cand hy)
          refine ⟨hyl, ?_⟩
          rcases hym with hym | hym
          · exact Or.inl (by simp [hym])
          · exact Or.inr hym
        obtain ⟨wf, p, pre₀, hout, hwf, hnr⟩ :=
          geoLoopAux_exhaust provider th rest (idx + 1) _ _
            { st with noResult := st.noResult ++ [cand] } (q ++ [cand]) cand hall'
        exact ⟨wf, p, pre₀, _, rfl, hout, hwf, hnr⟩

/-! Claim C7. -/

/-- C7 (the code at the failing input): for an empty snippet list the
candidate sequence is empty, and `_geolocate` does not return a failure
result — it raises `NameError` at `self.no_result_list.append(attempted_address)`
because the loop variable was never bound, leaving the cache state
untouched; the exception aborts the row loop of `geolocate_csv`, contrary
to the claim and to the specified "signal immediate failure, never
fatal" behaviour. -/
theorem c7_empty_snippets_name_error (provider : String → List Coords) (D : Nat)
    (st : GeoState) :
    composed_addresses D [] = []
    ∧ (geolocate provider D [] st).outcome = GeoOutcome.nameError
    ∧ (geolocate provider D [] st).state = st := by
  have hc : composed_addresses D [] = [] := by
    unfold composed_addresses
    rw [combosUpTo_nil]
    rfl
  refine ⟨hc, ?_, ?_⟩
  · unfold geolocate
    rw [hc]
    rfl
  · unfold geolocate
    rw [hc]
    rfl

/-! Claim C9. -/

/-- C9 counterexample: the snippets `["a", "b", "a, b"]` are pairwise
distinct, yet at depth 2 the candidate sequence contains the composite
string `"a, b"` twice (once as the join of the first two snippets, once
as the third snippet alone), so it is not de-duplicated. -/
theorem c9_counterexample :
    (["a", "b", "a, b"] : List String).Nodup
    ∧ composed_addresses 2 ["a", "b", "a, b"]
        = ["a", "a, b", "a, a, b", "b", "b, a, b", "a, b"]
    ∧ ¬ (composed_addresses 2 ["a", "b", "a, b"]).Nodup := by
  decide

/-- C9 amended: for a duplicate-free snippet list the *subset* sequence
underlying the candidates is duplicate-free — no subset is enumerated
twice — and the candidate sequence is its image under the `", "`-join;
equal candidate strings can still arise when distinct subsets join to
the same string. -/
theorem c9_subsets_nodup (addr_snips : List String) (D : Nat) (hnd : addr_snips.Nodup) :
    (sortedCombos D addr_snips).Nodup
    ∧ composed_addresses D addr_snips
        = (sortedCombos D addr_snips).map (fun l => String.intercalate ", " l) :=
  ⟨nodup_sortByKey (nodup_combosUpTo hnd D), rfl⟩

/-- Witness for C9's amended theorem at the distinct snippets of the
counterexample. -/
theorem c9_subsets_nodup_witness :
    (["a", "b", "a, b"] : List String).Nodup
    ∧ ((sortedCombos 2 ["a", "b", "a, b"]).Nodup
      ∧ composed_addresses 2 ["a", "b", "a, b"]
          = (sortedCombos 2 ["a", "b", "a, b"]).map (fun l => String.intercalate ", " l)) :=
  ⟨by decide, c9_subsets_nodup ["a", "b", "a, b"] 2 (by decide)⟩

/-! Claim C8. -/

/-- C8 counterexample: starting from the duplicate-free (empty) negative
cache, one `_geolocate` call on the single snippet `["x"]` with a
provider that finds nothing records `"x"` twice — once by the in-loop
failure recording and once by the unconditional append of the last
attempted candidate on exhaustion. -/
theorem c8_counterexample :
    (geolocate (fun _ => []) 1 ["x"] ⟨[], []⟩).state.noResult = ["x", "x"]
    ∧ ¬ (geolocate (fun _ => []) 1 ["x"] ⟨[], []⟩).state.noResult.Nodup := by
  decide

/-- C8 amended: failure recording inside the candidate loop does have
set-insertion semantics — the addresses the loop appends are pairwise
distinct and absent from the negative cache at entry — but the
exhaustion step appends the last attempted candidate unconditionally, so
a run can leave the negative cache with (at most one new) duplicate
entry. -/
theorem c8_negative_cache (provider : String → List Coords) (D : Nat)
    (addr_snips : List String) (st : GeoState) (hnd : st.noResult.Nodup) :
    ∃ loopNew lastE,
      (geolocate provider D addr_snips st).state.noResult = st.noResult ++ loopNew ++ lastE
      ∧ (st.noResult ++ loopNew).Nodup
      ∧ (lastE = [] ∨ ∃ a, lastE = [a]) := by
  obtain ⟨qnew, loopNew, lastE, dnew, evnew, h₁, h₂, h₃, h₄, h₅, h₆, h₇, h₈, h₉, h₁₀, h₁₁⟩ :=
    geoLoopAux_master provider (2 ^ (addr_snips.length - 1)) (composed_addresses D addr_snips)
      0 "" [] st [] none
  refine ⟨loopNew, lastE, h₂, ?_, h₈⟩
  refine hnd.append (h₅.sublist h₇) ?_
  intro x hx₁ hx₂
  exact (h₆ x (h₇.subset hx₂)).1 hx₁

/-- Witness for C8's amended theorem at the counterexample's input. -/
theorem c8_negative_cache_witness :
    ((⟨[], []⟩ : GeoState) : GeoState).noResult.Nodup
    ∧ (∃ loopNew lastE,
        (geolocate (fun _ => []) 1 ["x"] ⟨[], []⟩).state.noResult
            = (⟨[], []⟩ : GeoState).noResult ++ loopNew ++ lastE
        ∧ ((⟨[], []⟩ : GeoState).noResult ++ loopNew).Nodup
        ∧ (lastE = [] ∨ ∃ a, lastE = [a])) :=
  ⟨by decide, c8_negative_cache (fun _ => []) 1 ["x"] ⟨[], []⟩ (by decide)⟩

/-! Claim C3. -/

/-- C3: a candidate in the negative cache and not in the positive cache
is skipped — the loop advances to the next candidate with no provider
call and no "No result found" warning for it (only the fidelity text may
be appended at that step); moreover, across any whole run from a state
whose negative cache holds the candidate, the candidate is never queried
and no "No result found" event for it is ever appended. -/
theorem c3_negative_cache_skip (provider : String → List Coords) (th : Nat) (cand : String)
    (rest : List String) (idx : Nat) (w : String) (ev : List WEvent) (st : GeoState)
    (q : List String) (last : Option String)
    (hneg : cand ∈ st.noResult) (hpos : st.discovered.lookup cand = none) :
    (geoLoopAux provider th (cand :: rest) idx w ev st q last
        = geoLoopAux provider th rest (idx + 1) (if th < idx then w ++ fidelityMsg else w)
            (if th < idx then ev ++ [WEvent.fidelity] else ev) st q (some cand))
    ∧ (∀ (cands₀ : List String) (idx₀ : Nat) (w₀ : String) (ev₀ : List WEvent)
          (q₀ : List String) (last₀ : Option String),
        ∃ qnew evnew,
          (geoLoopAux provider th cands₀ idx₀ w₀ ev₀ st q₀ last₀).queries = q₀ ++ qnew
          ∧ (geoLoopAux provider th cands₀ idx₀ w₀ ev₀ st q₀ last₀).events = ev₀ ++ evnew
          ∧ cand ∉ qnew
          ∧ WEvent.noResult cand ∉ evnew) := by
  constructor
  · exact geoLoopAux_cons_skip hpos hneg
  · intro cands₀ idx₀ w₀ ev₀ q₀ last₀
    obtain ⟨qnew, loopNew, lastE, dnew, evnew, h₁, h₂, h₃, h₄, h₅, h₆, h₇, h₈, h₉, h₁₀, h₁₁⟩ :=
      geoLoopAux_master provider th cands₀ idx₀ w₀ ev₀ st q₀ last₀
    have hq : cand ∉ qnew := fun hc => (h₆ cand hc).1 hneg
    exact ⟨qnew, evnew, h₁, h₄, hq, fun hc => hq (h₁₀ cand hc)⟩

/-- Witness for C3 at a concrete negatively-cached candidate. -/
theorem c3_negative_cache_skip_witness :
    ("a" ∈ (⟨[], ["a"]⟩ : GeoState).noResult)
    ∧ ((⟨[], ["a"]⟩ : GeoState).discovered.lookup "a" = none)
    ∧ ((geoLoopAux (fun _ => []) 1 ("a" :: []) 0 "" [] ⟨[], ["a"]⟩ [] none
          = geoLoopAux (fun _ => []) 1 [] (0 + 1) (if 1 < 0 then "" ++ fidelityMsg else "")
              (if 1 < 0 then [] ++ [WEvent.fidelity] else []) ⟨[], ["a"]⟩ [] (some "a"))
      ∧ (∀ (cands₀ : List String) (idx₀ : Nat) (w₀ : String) (ev₀ : List WEvent)
            (q₀ : List String) (last₀ : Option String),
          ∃ qnew evnew,
            (geoLoopAux (fun _ => []) 1 cands₀ idx₀ w₀ ev₀ ⟨[], ["a"]⟩ q₀ last₀).queries
                = q₀ ++ qnew
            ∧ (geoLoopAux (fun _ => []) 1 cands₀ idx₀ w₀ ev₀ ⟨[], ["a"]⟩ q₀ last₀).events
                = ev₀ ++ evnew
            ∧ "a" ∉ qnew
            ∧ WEvent.noResult "a" ∉ evnew)) :=
  ⟨by decide, by decide,
    c3_negative_cache_skip (fun _ => []) 1 "a" [] 0 "" [] ⟨[], ["a"]⟩ [] none
      (by decide) (by decide)⟩

/-! Claim C4. -/

/-- C4: for a non-empty snippet list (at the spec's positive search
depth), if every candidate is either already negatively cached or gets an
empty provider answer (and, per the cache invariant, none is positively
cached), the run returns the `(nan, nan)` sentinel with a warning ending
in `"Search Failed!;"`, and the last attempted candidate — the final
element of the candidate sequence — is recorded in the negative cache. -/
theorem c4_exhaustion (provider : String → List Coords) (D : Nat)
    (addr_snips : List String) (st : GeoState)
    (hne : addr_snips ≠ []) (hD : 1 ≤ D)
    (hall : ∀ c ∈ composed_addresses D addr_snips,
      st.discovered.lookup c = none ∧ (c ∈ st.noResult ∨ provider c = [])) :
    ∃ wf p pre₀ lastC,
      (composed_addresses D addr_snips).getLast? = some lastC
      ∧ (geolocate provider D addr_snips st).outcome
          = GeoOutcome.ok PyFloat.nan PyFloat.nan wf
      ∧ wf = p ++ searchFailedMsg
      ∧ (geolocate provider D addr_snips st).state.noResult = pre₀ ++ [lastC] := by
  unfold geolocate
  exact geoLoopAux_exhaust_start provider (2 ^ (addr_snips.length - 1))
    (composed_addresses D addr_snips) 0 "" [] st []
    (composed_addresses_ne_nil hne hD) hall

/-- Witness for C4: the spec's own exhaustion test case — snippets
`["x"]`, depth 1, a provider that finds nothing, empty caches. -/
theorem c4_exhaustion_witness :
    ((["x"] : List String) ≠ [])
    ∧ (1 ≤ 1)
    ∧ (∀ c ∈ composed_addresses 1 ["x"],
        (⟨[], []⟩ : GeoState).discovered.lookup c = none
        ∧ (c ∈ (⟨[], []⟩ : GeoState).noResult ∨ (fun (_ : String) => ([] : List Coords)) c = []))
    ∧ (∃ wf p pre₀ lastC,
        (composed_addresses 1 ["x"]).getLast? = some lastC
        ∧ (geolocate (fun _ => []) 1 ["x"] ⟨[], []⟩).outcome
            = GeoOutcome.ok PyFloat.nan PyFloat.nan wf
        ∧ wf = p ++ searchFailedMsg
        ∧ (geolocate (fun _ => []) 1 ["x"] ⟨[], []⟩).state.noResult = pre₀ ++ [lastC]) :=
  ⟨by decide, by decide, by decide,
    c4_exhaustion (fun _ => []) 1 ["x"] ⟨[], []⟩ (by decide) (by decide) (by decide)⟩

/-! Claim C10. -/

/-- C10 (frame property): a `_geolocate` call never removes or modifies a
pre-existing positive-cache entry — every composite-address lookup that
succeeded before the call succeeds with the same coordinates after it —
and never removes a negative-cache entry: both caches only grow (new
entries are appended at the end). -/
theorem c10_frame (provider : String → List Coords) (D : Nat) (addr_snips : List String)
    (st : GeoState) :
    (∀ (k : String) (v : Coords), st.discovered.lookup k = some v →
        (geolocate provider D addr_snips st).state.discovered.lookup k = some v)
    ∧ (∃ dnew, (geolocate provider D addr_snips st).state.discovered = st.discovered ++ dnew)
    ∧ (∃ nnew, (geolocate provider D addr_snips st).state.noResult = st.noResult ++ nnew) := by
  unfold geolocate
  obtain ⟨qnew, loopNew, lastE, dnew, evnew, h₁, h₂, h₃, h₄, h₅, h₆, h₇, h₈, h₉, h₁₀, h₁₁⟩ :=
    geoLoopAux_master provider (2 ^ (addr_snips.length - 1)) (composed_addresses D addr_snips)
      0 "" [] st [] none
  refine ⟨?_, ⟨dnew, h₃⟩, ⟨loopNew ++ lastE, by rw [h₂, List.append_assoc]⟩⟩
  intro k v hk
  rw [h₃]
  exact lookup_append_left hk

/-- Entering the loop (loop variable unbound) on a non-empty sequence
whose every candidate is negatively cached and positively unknown: every
candidate is skipped, the run fails with the sentinels, and no provider
query is issued. -/
theorem geoLoopAux_all_skip_start (provider : String → List Coords) (th : Nat)
    (cands : List String) (idx : Nat) (w : String) (ev : List WEvent) (st : GeoState)
    (q : List String) (hne : cands ≠ [])
    (hall : ∀ x ∈ cands, st.discovered.lookup x = none ∧ x ∈ st.noResult) :
    ∃ wf, (geoLoopAux provider th cands idx w ev st q none).outcome
        = GeoOutcome.ok PyFloat.nan PyFloat.nan wf
      ∧ (geoLoopAux provider th cands idx w ev st q none).queries = q := by
  cases cands with
  | nil => exact absurd rfl hne
  | cons cand rest =>
    obtain ⟨hcl, hcm⟩ := hall cand (List.mem_cons_self cand rest)
    rw [geoLoopAux_cons_skip hcl hcm]
    exact geoLoopAux_all_skip provider th rest (idx + 1) _ _ st q cand
      (fun y hy => hall y (List.mem_cons_of_mem cand hy))

/-! Claim C2. -/

/-- C2: a candidate present in the positive cache makes `_geolocate`
return its cached coordinates immediately, together with the warnings
accumulated so far, with no provider call and no state change; within any
one run no address is ever queried twice; and running `_geolocate` again
on the same snippets against the state a returning run left behind issues
no provider call at all and returns the same coordinates. -/
theorem c2_cache_hit_idempotent (provider : String → List Coords) (th : Nat) (cand : String)
    (rest : List String) (idx : Nat) (w : String) (ev : List WEvent) (st : GeoState)
    (q : List String) (last : Option String) (lat lng : PyFloat)
    (hc : st.discovered.lookup cand = some (lat, lng)) :
    (geoLoopAux provider th (cand :: rest) idx w ev st q last =
      { outcome := GeoOutcome.ok lat lng (if th < idx then w ++ fidelityMsg else w),
        state := st, queries := q,
        events := if th < idx then ev ++ [WEvent.fidelity] else ev,
        nextIdx := idx + 1 })
    ∧ (∀ (provider₀ : String → List Coords) (D₀ : Nat) (snips₀ : List String) (st₀ : GeoState),
        (geolocate provider₀ D₀ snips₀ st₀).queries.Nodup)
    ∧ (∀ (provider₀ : String → List Coords) (D₀ : Nat) (snips₀ : List String) (st₀ : GeoState)
          (lat₀ lng₀ : PyFloat) (wf₀ : String),
        (geolocate provider₀ D₀ snips₀ st₀).outcome = GeoOutcome.ok lat₀ lng₀ wf₀ →
        ∃ wf₁,
          (geolocate provider₀ D₀ snips₀ ((geolocate provider₀ D₀ snips₀ st₀).state)).outcome
              = GeoOutcome.ok lat₀ lng₀ wf₁
          ∧ (geolocate provider₀ D₀ snips₀ ((geolocate provider₀ D₀ snips₀ st₀).state)).queries
              = []) := by
  refine ⟨geoLoopAux_cons_hit hc, ?_, ?_⟩
  · intro provider₀ D₀ snips₀ st₀
    unfold geolocate
    obtain ⟨qnew, loopNew, lastE, dnew, evnew, h₁, h₂, h₃, h₄, h₅, h₆, h₇, h₈, h₉, h₁₀, h₁₁⟩ :=
      geoLoopAux_master provider₀ (2 ^ (snips₀.length - 1)) (composed_addresses D₀ snips₀)
        0 "" [] st₀ [] none
    rw [h₁]
    simpa using h₅
  · intro provider₀ D₀ snips₀ st₀ lat₀ lng₀ wf₀ hout
    have hne : composed_addresses D₀ snips₀ ≠ [] := by
      intro h
      unfold geolocate at hout
      rw [h, geoLoopAux_nil] at hout
      simp at hout
    unfold geolocate at hout ⊢
    rcases geoLoopAux_ok_post provider₀ (2 ^ (snips₀.length - 1))
        (composed_addresses D₀ snips₀) 0 "" [] st₀ [] none lat₀ lng₀ wf₀ hout with
      ⟨pre, A, post, heq, hA, hpre⟩ | ⟨hall, hlat, hlng⟩
    · rw [heq]
      obtain ⟨wf₁, hout₁, hq₁, _⟩ :=
        geoLoopAux_skip_to_hit provider₀ (2 ^ (snips₀.length - 1)) pre A post 0 "" []
          ((geoLoopAux provider₀ (2 ^ (snips₀.length - 1)) (composed_addresses D₀ snips₀)
            0 "" [] st₀ [] none).state) [] none lat₀ lng₀ hpre hA
      rw [heq] at hout₁ hq₁
      exact ⟨wf₁, hout₁, hq₁⟩
    · subst hlat
      subst hlng
      obtain ⟨wf₁, hout₁, hq₁⟩ :=
        geoLoopAux_all_skip_start provider₀ (2 ^ (snips₀.length - 1))
          (composed_addresses D₀ snips₀) 0 "" []
          ((geoLoopAux provider₀ (2 ^ (snips₀.length - 1)) (composed_addresses D₀ snips₀)
            0 "" [] st₀ [] none).state) [] hne hall
      exact ⟨wf₁, hout₁, hq₁⟩

/-- Witness for C2 at a concrete cached candidate. -/
theorem c2_cache_hit_idempotent_witness :
    ((⟨[("a", (PyFloat.val 1, PyFloat.val 2))], []⟩ : GeoState).discovered.lookup "a"
        = some (PyFloat.val 1, PyFloat.val 2))
    ∧ ((geoLoopAux (fun _ => []) 1 ("a" :: []) 0 "" []
          ⟨[("a", (PyFloat.val 1, PyFloat.val 2))], []⟩ [] none =
        { outcome := GeoOutcome.ok (PyFloat.val 1) (PyFloat.val 2)
            (if 1 < 0 then "" ++ fidelityMsg else ""),
          state := ⟨[("a", (PyFloat.val 1, PyFloat.val 2))], []⟩, queries := [],
          events := if 1 < 0 then [] ++ [WEvent.fidelity] else [],
          nextIdx := 0 + 1 })
      ∧ (∀ (provider₀ : String → List Coords) (D₀ : Nat) (snips₀ : List String)
            (st₀ : GeoState),
          (geolocate provider₀ D₀ snips₀ st₀).queries.Nodup)
      ∧ (∀ (provider₀ : String → List Coords) (D₀ : Nat) (snips₀ : List String)
            (st₀ : GeoState) (lat₀ lng₀ : PyFloat) (wf₀ : String),
          (geolocate provider₀ D₀ snips₀ st₀).outcome = GeoOutcome.ok lat₀ lng₀ wf₀ →
          ∃ wf₁,
            (geolocate provider₀ D₀ snips₀ ((geolocate provider₀ D₀ snips₀ st₀).state)).outcome
                = GeoOutcome.ok lat₀ lng₀ wf₁
            ∧ (geolocate provider₀ D₀ snips₀
                ((geolocate provider₀ D₀ snips₀ st₀).state)).queries
                = [])) :=
  ⟨by decide,
    c2_cache_hit_idempotent (fun _ => []) 1 "a" [] 0 "" []
      ⟨[("a", (PyFloat.val 1, PyFloat.val 2))], []⟩ [] none (PyFloat.val 1) (PyFloat.val 2)
      (by decide)⟩

/-- Fidelity accounting for a whole `_geolocate` call: the number of
fidelity events equals the number of loop iterations begun at a 0-based
candidate index strictly exceeding `2^(N-1)`. -/
theorem geolocate_fidelity_count (provider : String → List Coords) (D : Nat)
    (addr_snips : List String) (st : GeoState) :
    (geolocate provider D addr_snips st).events.count WEvent.fidelity
        = (List.range (geolocate provider D addr_snips st).nextIdx).countP
            (fun j => decide (2 ^ (addr_snips.length - 1) < j)) := by
  unfold geolocate
  have hcount := geoLoopAux_fidelity_count provider (2 ^ (addr_snips.length - 1))
    (composed_addresses D addr_snips) 0 "" [] st [] none
  rw [hcount]
  rw [List.range_eq_range']
  simp

/-! Claim C5. -/

set_option maxRecDepth 40000 in
/-- C5 counterexample: for the row `["a", "b", "c"]` at depth 3 with
empty caches and a provider that finds nothing, the returned warning
string contains the fidelity text twice (not at most once), and not at
its front. -/
theorem c5_counterexample :
    countOccur fidelityMsg
        (warningsOf (geolocate (fun _ => []) 3 ["a", "b", "c"] ⟨[], []⟩).outcome) = 2
    ∧ (fidelityMsg.data.isPrefixOf
        (warningsOf (geolocate (fun _ => []) 3 ["a", "b", "c"] ⟨[], []⟩).outcome).data)
        = false := by
  decide

/-- C5 amended: the fidelity text is appended — not prepended — once per
loop iteration begun at a 0-based candidate index strictly exceeding
`2^(N-1)`: the number of fidelity events in a run equals the number of
such iterations, and the warning string of a returned result is exactly
the rendered event trace in order (so the text can occur several times,
after earlier warning text, and is not limited to one occurrence at the
front). -/
theorem c5_fidelity_per_candidate (provider : String → List Coords) (D : Nat)
    (addr_snips : List String) (st : GeoState) :
    (geolocate provider D addr_snips st).events.count WEvent.fidelity
        = (List.range (geolocate provider D addr_snips st).nextIdx).countP
            (fun j => decide (2 ^ (addr_snips.length - 1) < j))
    ∧ (∀ (lat lng : PyFloat) (wf : String),
        (geolocate provider D addr_snips st).outcome = GeoOutcome.ok lat lng wf →
        wf = renderAll (geolocate provider D addr_snips st).events) := by
  constructor
  · exact geolocate_fidelity_count provider D addr_snips st
  · intro lat lng wf hout
    unfold geolocate at hout ⊢
    obtain ⟨evnew, hev, hwf⟩ := geoLoopAux_warnings_render provider
      (2 ^ (addr_snips.length - 1)) (composed_addresses D addr_snips) 0 "" [] st [] none
      lat lng wf hout
    rw [hev, hwf]
    simp

/-! Claim C6. -/

/-- C6 counterexample: for the 3-snippet row `["a", "b", "c"]` (threshold
`2^2 = 4`) with empty caches and a provider that finds nothing, all 7
candidates are evaluated; the event trace shows the 5th candidate (index
4, the lone `"b"`) evaluated with no fidelity warning, and the warning
firing at indexes 5 and 6 — twice for the row, not exactly once. -/
theorem c6_counterexample :
    (geolocate (fun _ => []) 3 ["a", "b", "c"] ⟨[], []⟩).events
        = [WEvent.noResult "a", WEvent.noResult "a, b", WEvent.noResult "a, c",
           WEvent.noResult "a, b, c", WEvent.noResult "b", WEvent.fidelity,
           WEvent.noResult "b, c", WEvent.fidelity, WEvent.noResult "c",
           WEvent.searchFailed]
    ∧ (geolocate (fun _ => []) 3 ["a", "b", "c"] ⟨[], []⟩).events.count WEvent.fidelity = 2
    ∧ (geolocate (fun _ => []) 3 ["a", "b", "c"] ⟨[], []⟩).nextIdx = 7 := by
  decide

/-- C6 amended: for a row with exactly 3 snippets the threshold is
`2^2 = 4` and the comparison is strict, so the fallback fidelity warning
fires once per evaluated candidate of 0-based index 5 or more — the 6th
candidate onward, not the 5th, and once per such candidate rather than
once per row. -/
theorem c6_fidelity_threshold (provider : String → List Coords) (D : Nat)
    (addr_snips : List String) (st : GeoState) (h3 : addr_snips.length = 3) :
    (geolocate provider D addr_snips st).events.count WEvent.fidelity
        = (List.range (geolocate provider D addr_snips st).nextIdx).countP
            (fun j => decide (4 < j)) := by
  have h := geolocate_fidelity_count provider D addr_snips st
  rw [h3] at h
  exact h

/-- Witness for C6's amended theorem at the counterexample's row. -/
theorem c6_fidelity_threshold_witness :
    ((["a", "b", "c"] : List String).length = 3)
    ∧ (geolocate (fun _ => []) 3 ["a", "b", "c"] ⟨[], []⟩).events.count WEvent.fidelity
        = (List.range (geolocate (fun _ => []) 3 ["a", "b", "c"] ⟨[], []⟩).nextIdx).countP
            (fun j => decide (4 < j)) :=
  ⟨by decide, c6_fidelity_threshold (fun _ => []) 3 ["a", "b", "c"] ⟨[], []⟩ (by decide)⟩

end CSVGeolocator
